import Mathlib

/-
Verification of the ruf message-dispatch service against its specification.

Shallow embedding conventions:
- Instants (Go time.Time) are modelled as Int seconds since the Unix epoch, in UTC.
  The Go code normalises now to UTC at the top of Expand and works with UTC
  instants throughout the paths modelled here.
- The Go zero time (trigger.ScheduledAt.IsZero()) is modelled by Option Int being none.
- External library calls (the robfig cron parser, the rrule library, time.ParseDuration)
  are parameters of the embedding, collected in the Ext structure; all repository logic
  around them is translated from internal/scheduler/scheduler.go, internal/kv/bbolt/bbolt.go,
  internal/datastore/mock.go, internal/poller/poller.go and
  internal/processor/markdown_to_slack.go.
- Persistent buckets are association lists. The slots bucket of bbolt is keyed by
  slot.Format(time.RFC3339); at any fixed location that formatting is injective on
  instants, so the bucket is modelled keyed by the instant itself.
-/

namespace Ruf

/-! Data model, from internal/model/call.go. -/

/-- Destination from internal/model/call.go: a type tag and recipient list.
The Go field named Type is called dtype here. -/
structure Destination where
  dtype : String := ""
  to_ : List String := []
deriving DecidableEq, Repr

/-- Trigger from internal/model/call.go. The Go zero value of ScheduledAt is none. -/
structure Trigger where
  scheduledAt : Option Int := none
  cron : String := ""
  rrule : String := ""
  dstart : String := ""
  delta : String := ""
  sequence : String := ""
deriving DecidableEq, Repr

/-- Campaign from internal/model/call.go. -/
structure Campaign where
  id : String := ""
  name : String := ""
  iconURL : String := ""
deriving DecidableEq, Repr

/-- Call from internal/model/call.go. The scheduledAt field is only set on expanded
instances (zero otherwise, modelled as 0). The Data field of the Go struct (an
opaque template payload that no modelled code path reads or writes, only carries)
is omitted. -/
structure Call where
  id : String := ""
  author : String := ""
  subject : String := ""
  content : String := ""
  destinations : List Destination := []
  triggers : List Trigger := []
  campaign : Campaign := {}
  scheduledAt : Int := 0
deriving DecidableEq, Repr

/-- Event from internal/model/call.go. -/
structure Event where
  destinations : List Destination := []
  sequence : String := ""
  startTime : Int := 0
deriving DecidableEq, Repr

/-- Source from internal/sourcer/sourcer.go. -/
structure Source where
  campaign : Campaign := {}
  calls : List Call := []
  events : List Event := []
deriving DecidableEq, Repr

/-! Sent-message log, from internal/kv/kv.go. -/

/-- Status from internal/kv/kv.go. -/
inductive Status where
  | sent
  | failed
  | deleted
  | skipped
deriving DecidableEq, Repr

/-- SentMessage from internal/kv/kv.go (the timestamp field is the transport handle). -/
structure SentMessage where
  id : String := ""
  shortId : String := ""
  sourceId : String := ""
  scheduledAt : Int := 0
  timestamp : String := ""
  destination : String := ""
  dtype : String := ""
  status : Status := .sent
  campaignName : String := ""
deriving DecidableEq, Repr

/-- Association-list lookup used for the persisted buckets and in-memory maps. -/
def lookupA {α : Type} : List (String × α) → String → Option α
  | [], _ => none
  | (k, v) :: rest, key => if k == key then some v else lookupA rest key

/-- The sent-messages bucket, keyed by the derived message id. -/
abbrev SentStore : Type := List (String × SentMessage)

/-- generateID from internal/kv/bbolt/bbolt.go (identical in internal/datastore/mock.go):
joins the four key parts with the at sign. -/
def generateID (campaignID callID destType destination : String) : String :=
  String.intercalate "@" [campaignID, callID, destType, destination]

/-- HasBeenSent from internal/kv/bbolt/bbolt.go lines 241-262 (the mock at
internal/datastore/mock.go lines 52-58 implements the same predicate): looks up the
record under generateID and reports whether its status is sent or deleted; a missing
record reports false. -/
def hasBeenSent (store : SentStore) (campaignID callID destType destination : String) : Bool :=
  match lookupA store (generateID campaignID callID destType destination) with
  | some sm => sm.status == Status.sent || sm.status == Status.deleted
  | none => false

/-! Slot reservations, from internal/kv/bbolt/bbolt.go. -/

/-- The slots bucket: key is the slot instant (standing for its RFC3339 rendering at
the configured location, which is injective on instants), value is the reserving key. -/
abbrev SlotStore : Type := List (Int × String)

/-- Lookup in the slots bucket. -/
def lookupSlot : SlotStore → Int → Option String
  | [], _ => none
  | (k, v) :: rest, key => if k == key then some v else lookupSlot rest key

/-- ReserveSlot from internal/kv/bbolt/bbolt.go lines 390-409: inside one write
transaction, if the key is present return false and leave the bucket unchanged,
otherwise insert the reserving key and return true. -/
def reserveSlot (st : SlotStore) (slot : Int) (callID : String) : Bool × SlotStore :=
  match lookupSlot st slot with
  | some _ => (false, st)
  | none => (true, (slot, callID) :: st)

/-- ClearAllSlots from internal/kv/bbolt/bbolt.go lines 411-421: the bucket is
deleted and recreated empty. -/
def clearAllSlots : SlotStore := []

/-! Time helpers for the scheduler. -/

/-- Model of t.Truncate(time.Minute): round down to a multiple of 60 seconds. -/
def truncMinute (t : Int) : Int := t - t.emod 60

/-- Model of the check ScheduledAt.Hour() == 0 and Minute() == 0 and Second() == 0
for a UTC instant: the instant is at a midnight boundary. -/
def isMidnight (t : Int) : Bool := t.emod 86400 == 0

/-- The first recipient of a destination; the Go code indexes destination.To[0]
directly (and would panic on an empty slice, which no modelled input exercises). -/
def head0 (l : List String) : String := l.headD ""

/-- Lowercased weekday name of a day index (days since 1970-01-01, which was a
Thursday), as produced by currentDay.Weekday().String() lowercased. -/
def weekdayName (day : Int) : String :=
  let k := (day + 4).emod 7
  if k = 0 then "sunday"
  else if k = 1 then "monday"
  else if k = 2 then "tuesday"
  else if k = 3 then "wednesday"
  else if k = 4 then "thursday"
  else if k = 5 then "friday"
  else "saturday"

/-- Two-digit zero padding for time rendering. -/
def pad2 (n : Nat) : String := if n < 10 then "0" ++ toString n else toString n

/-- Civil date (year, month, day) of a day index since 1970-01-01, proleptic
Gregorian (the standard days-from-civil inverse). -/
def civilFromDays (z0 : Int) : Int × Nat × Nat :=
  let z := z0 + 719468
  let era := z.fdiv 146097
  let doe := (z - era * 146097).toNat
  let yoe := (doe - doe / 1460 + doe / 36524 - doe / 146096) / 365
  let doy := doe - (365 * yoe + yoe / 4 - yoe / 100)
  let mp := (5 * doy + 2) / 153
  let d := doy - (153 * mp + 2) / 5 + 1
  let m := if mp < 10 then mp + 3 else mp - 9
  let y := (yoe : Int) + era * 400 + (if m ≤ 2 then 1 else 0)
  (y, m, d)

/-- Model of t.Format(time.RFC3339) for a UTC instant. -/
def rfc3339 (t : Int) : String :=
  let days := t.fdiv 86400
  let secs := (t - days * 86400).toNat
  let c := civilFromDays days
  toString c.1 ++ "-" ++ pad2 c.2.1 ++ "-" ++ pad2 c.2.2 ++ "T" ++
    pad2 (secs / 3600) ++ ":" ++ pad2 (secs % 3600 / 60) ++ ":" ++ pad2 (secs % 60) ++ "Z"

/-! Slot engine, from internal/scheduler/scheduler.go lines 208-272. -/

/-- Slot configuration: the viper keys the slot engine consults. The configured
location slots.timezone is modelled as a fixed offset east of UTC in minutes;
entries maps a config key to a weekday-to-slot-strings mapping, as returned by
viper.GetStringMapStringSlice. -/
structure SlotsConfig where
  timezoneOffset : Int := 0
  entries : List (String × List (String × List String)) := []
deriving Repr

/-- Character-level replacement; models strings.ReplaceAll for a one-character
pattern (the only shape the slot engine uses). -/
def replaceChar (a b : Char) (s : String) : String :=
  String.mk (s.data.map (fun c => if c == a then b else c))

/-- Recipient sanitisation from findNextAvailableSlot: dots and hashes become
underscores before being used in a viper key. -/
def sanitizeTo (to0 : String) : String :=
  replaceChar '#' '_' (replaceChar '.' '_' to0)

/-- Splitting on a character; models strings.Split with a one-character separator
(the colon of the slot strings). -/
def splitOnCharAux (c : Char) : List Char → List Char → List (List Char)
  | [], acc => [acc.reverse]
  | x :: rest, acc =>
    if x == c then acc.reverse :: splitOnCharAux c rest []
    else splitOnCharAux c rest (x :: acc)

/-- Splits a string on colons, as strings.Split(slot, the colon) does. -/
def splitColon (s : String) : List String :=
  (splitOnCharAux ':' s.data []).map (fun l => String.mk l)

/-- Decimal parse of a character list, none when empty or not all digits. -/
def parseNatChars (l : List Char) : Option Nat :=
  if l.isEmpty then none
  else
    l.foldl (fun acc c =>
      match acc with
      | none => none
      | some n => if c.isDigit then some (n * 10 + (c.toNat - 48)) else none) (some 0)

/-- The three-level config lookup of findNextAvailableSlot (first hit wins):
slots.type.recipient, then slots.type.default, then slots.default. -/
def slotsFor (cfg : SlotsConfig) (destType to0 : String) : Option (List (String × List String)) :=
  match lookupA cfg.entries ("slots." ++ destType ++ "." ++ sanitizeTo to0) with
  | some m => some m
  | none =>
    match lookupA cfg.entries ("slots." ++ destType ++ ".default") with
    | some m => some m
    | none => lookupA cfg.entries "slots.default"

/-- Hour-part parse of a slot string: time.ParseDuration of the part plus an h
suffix, with the error ignored (so a failed parse leaves the zero duration). -/
def parseSlotPart (s : String) : Int := ((parseNatChars s.data).getD 0 : Int)

/-- The inner loop of findNextAvailableSlot over the slot strings of one day:
slots with a bad format are skipped, slot instants strictly before now are skipped,
and the first instant whose reservation succeeds is returned. dayStartUTC is the
UTC instant of midnight of the day in the configured location. -/
def searchSlots (key : String) (dayStartUTC now : Int) : List String → SlotStore → Option Int × SlotStore
  | [], st => (none, st)
  | s :: rest, st =>
    match splitColon s with
    | [hs, ms] =>
      let slotTime := dayStartUTC + parseSlotPart hs * 3600 + parseSlotPart ms * 60
      if slotTime < now then searchSlots key dayStartUTC now rest st
      else
        let r := reserveSlot st slotTime key
        if r.1 then (some slotTime, r.2) else searchSlots key dayStartUTC now rest r.2
    | _ => searchSlots key dayStartUTC now rest st

/-- The outer loop of findNextAvailableSlot over up to 365 days starting from the
scheduled day: days whose weekday has no configured slots are skipped. -/
def searchDays (cfg : SlotsConfig) (slotsByDay : List (String × List String)) (key : String)
    (schedDay now : Int) : List Nat → SlotStore → Option Int × SlotStore
  | [], st => (none, st)
  | i :: rest, st =>
    let day := schedDay + (i : Int)
    match lookupA slotsByDay (weekdayName day) with
    | none => searchDays cfg slotsByDay key schedDay now rest st
    | some slots =>
      match searchSlots key (day * 86400 - cfg.timezoneOffset * 60) now slots st with
      | (some t, st') => (some t, st')
      | (none, st') => searchDays cfg slotsByDay key schedDay now rest st'

/-- findNextAvailableSlot from internal/scheduler/scheduler.go lines 208-272: with no
slot configuration for the destination the scheduled instant is returned unchanged;
otherwise up to 365 days are searched and the first successfully reserved slot is
returned, with none standing for the no-available-slots error. The reservation key
is the destination type and first recipient joined with a colon. -/
def findNextAvailableSlot (cfg : SlotsConfig) (call : Call) (dest : Destination)
    (scheduledAt now : Int) (st : SlotStore) : Option Int × SlotStore :=
  match slotsFor cfg dest.dtype (head0 dest.to_) with
  | none => (some scheduledAt, st)
  | some slotsByDay =>
    if slotsByDay.isEmpty then (some scheduledAt, st)
    else
      searchDays cfg slotsByDay (dest.dtype ++ ":" ++ head0 dest.to_)
        (scheduledAt.fdiv 86400) now (List.range 365) st

/-! Trigger expansion, from internal/scheduler/scheduler.go lines 31-204. -/

/-- External library surface used by Expand. cronParse models the robfig parser:
on success it yields the Next function of the schedule (the earliest activation
strictly after its argument). rruleOccurrences models StrToROption, the dstart
handling, NewRRule and Between over the window (a parse failure yields the empty
list, matching the logged-and-skipped error path). parseDuration models
time.ParseDuration in seconds. -/
structure Ext where
  cronParse : String → Option (Int → Int)
  rruleOccurrences : Trigger → Int → Int → Int → List Int
  parseDuration : String → Option Int

/-- createCallFromDefinition from internal/scheduler/scheduler.go lines 274-290:
shallow copy of the definition, defaulting an empty campaign name to announcements,
deep-copying the destinations slice and clearing the triggers. -/
def createCallFromDefinition (defCall : Call) : Call :=
  let c := defCall
  let c := if c.campaign.name == "" then
    { c with campaign := { c.campaign with name := "announcements" } } else c
  { c with destinations := defCall.destinations, triggers := [] }

/-- State-threading concatenation of per-item emissions, the shape of every loop in
Expand that appends to expandedCalls while threading the slot store. -/
def foldState {α β σ : Type} (f : α → σ → List β × σ) : List α → σ → List β × σ
  | [], st => ([], st)
  | a :: rest, st =>
    let r := f a st
    let r' := foldState f rest r.2
    (r.1 ++ r'.1, r'.2)

/-- The direct-schedule branch of Expand (scheduler.go lines 51-65): one instance at
the trigger instant; the id is built from the definition id, the RFC3339 trigger
instant, the destination type and the first recipient; a midnight-aligned instant is
routed through the slot engine (a slot failure skips the emission). -/
def expandScheduledAt (cfg : SlotsConfig) (callDef : Call) (trig : Trigger)
    (dest : Destination) (now : Int) (st : SlotStore) : List Call × SlotStore :=
  match trig.scheduledAt with
  | none => ([], st)
  | some ts =>
    let newCall := createCallFromDefinition callDef
    let newCall := { newCall with
      scheduledAt := ts,
      id := callDef.id ++ ":scheduled_at:" ++ rfc3339 ts ++ ":" ++ dest.dtype ++ ":" ++ head0 dest.to_ }
    if isMidnight newCall.scheduledAt then
      match findNextAvailableSlot cfg newCall dest newCall.scheduledAt now st with
      | (none, st') => ([], st')
      | (some slot, st') =>
        ([{ newCall with scheduledAt := slot, destinations := [dest] }], st')
    else
      ([{ newCall with destinations := [dest] }], st)

/-- The cron occurrence loop of Expand (scheduler.go line 83): starting from
schedule.Next of one second before the window start, iterate while the occurrence
is not after the window end. The fuel argument bounds the recursion; for any next
function that is strictly increasing on integer seconds the chosen fuel is enough,
so the function equals the unbounded Go loop (cronLoop_fuel_irrelevant below). -/
def cronLoop (next : Int → Int) (endTime : Int) : Nat → Int → List Int
  | 0, _ => []
  | fuel + 1, t => if t ≤ endTime then t :: cronLoop next endTime fuel (next t) else []

/-- All raw cron occurrences visited by the loop for the window from startTime to
endTime. -/
def cronOccurrences (next : Int → Int) (startTime endTime : Int) : List Int :=
  cronLoop next endTime (endTime + 1 - next (startTime - 1)).toNat (next (startTime - 1))

/-- Emission of one cron occurrence (scheduler.go lines 84-98): the occurrence is
minute-truncated, a midnight-aligned result is routed through the slot engine, and
the id is built from the definition id, the cron expression, the destination type
and the first recipient (the occurrence instant is not part of the id). -/
def emitCronOccurrence (cfg : SlotsConfig) (callDef : Call) (trig : Trigger)
    (dest : Destination) (now : Int) (t : Int) (st : SlotStore) : List Call × SlotStore :=
  let eff := truncMinute t
  let newCall := createCallFromDefinition callDef
  let newCall := { newCall with scheduledAt := eff }
  let finish := fun (c : Call) (st' : SlotStore) =>
    ([{ c with
        id := callDef.id ++ ":cron:" ++ trig.cron ++ ":" ++ dest.dtype ++ ":" ++ head0 dest.to_,
        destinations := [dest] }], st')
  if isMidnight newCall.scheduledAt then
    match findNextAvailableSlot cfg newCall dest newCall.scheduledAt now st with
    | (none, st') => ([], st')
    | (some slot, st') => finish { newCall with scheduledAt := slot } st'
  else
    finish newCall st

/-- The cron branch of Expand (scheduler.go lines 68-100): a parse failure skips the
trigger, otherwise every occurrence of the loop is emitted. -/
def expandCron (ext : Ext) (cfg : SlotsConfig) (callDef : Call) (trig : Trigger)
    (dest : Destination) (now before after : Int) (st : SlotStore) : List Call × SlotStore :=
  if trig.cron == "" then ([], st)
  else
    match ext.cronParse trig.cron with
    | none => ([], st)
    | some next =>
      foldState (emitCronOccurrence cfg callDef trig dest now)
        (cronOccurrences next (now - before) (now + after)) st

/-- The rrule branch of Expand (scheduler.go lines 103-178): each occurrence
produced by the library for the window is emitted, midnight-aligned occurrences are
routed through the slot engine, and the id carries the RFC3339 occurrence instant. -/
def expandRRule (ext : Ext) (cfg : SlotsConfig) (callDef : Call) (trig : Trigger)
    (dest : Destination) (now before after : Int) (st : SlotStore) : List Call × SlotStore :=
  if trig.rrule == "" then ([], st)
  else
    foldState (fun occ st' =>
      let newCall := createCallFromDefinition callDef
      let newCall := { newCall with scheduledAt := occ }
      match (if isMidnight newCall.scheduledAt then
               findNextAvailableSlot cfg newCall dest newCall.scheduledAt now st'
             else (some newCall.scheduledAt, st')) with
      | (none, st'') => ([], st'')
      | (some slot, st'') =>
        ([{ newCall with
            scheduledAt := slot,
            id := callDef.id ++ ":rrule:" ++ trig.rrule ++ ":" ++ rfc3339 occ ++ ":" ++
              dest.dtype ++ ":" ++ head0 dest.to_,
            destinations := [dest] }], st''))
      (ext.rruleOccurrences trig now (now - before) (now + after)) st

/-- The event-sequence branch of Expand (scheduler.go lines 181-198): for every
event of the source whose sequence matches, one instance at startTime plus delta.
The destinations of the event are appended to the fresh copy and the result is then
overwritten with the single fanned-out destination, mirroring lines 192 and 194 of
the Go source in that order. -/
def expandSequence (ext : Ext) (callDef : Call) (trig : Trigger) (dest : Destination)
    (events : List Event) (st : SlotStore) : List Call × SlotStore :=
  if trig.sequence != "" && trig.delta != "" then
    foldState (fun (event : Event) st' =>
      match ext.parseDuration trig.delta with
      | none => ([], st')
      | some delta =>
        let newCall := createCallFromDefinition callDef
        let newCall := { newCall with scheduledAt := event.startTime + delta }
        let newCall := { newCall with destinations := newCall.destinations ++ event.destinations }
        let newCall := { newCall with
          id := callDef.id ++ ":sequence:" ++ trig.sequence ++ ":" ++ rfc3339 event.startTime ++
            ":" ++ dest.dtype ++ ":" ++ head0 dest.to_,
          destinations := [dest] }
        ([newCall], st'))
      (events.filter (fun e => e.sequence == trig.sequence)) st
  else ([], st)

/-- The body of the innermost loop of Expand for one (call, trigger, destination)
tuple: the four branches run in source order, threading the slot store. -/
def expandTriggerDest (ext : Ext) (cfg : SlotsConfig) (events : List Event) (callDef : Call)
    (now before after : Int) (trig : Trigger) (dest : Destination) (st : SlotStore) :
    List Call × SlotStore :=
  let r1 := expandScheduledAt cfg callDef trig dest now st
  let r2 := expandCron ext cfg callDef trig dest now before after r1.2
  let r3 := expandRRule ext cfg callDef trig dest now before after r2.2
  let r4 := expandSequence ext callDef trig dest events r3.2
  (r1.1 ++ r2.1 ++ r3.1 ++ r4.1, r4.2)

/-- The trigger and destination loops of Expand for one call definition. -/
def expandCall (ext : Ext) (cfg : SlotsConfig) (events : List Event)
    (now before after : Int) (callDef : Call) (st : SlotStore) : List Call × SlotStore :=
  foldState (fun trig =>
    foldState (fun dest => expandTriggerDest ext cfg events callDef now before after trig dest)
      callDef.destinations)
    callDef.triggers st

/-- The per-source loop of Expand; the events-by-sequence map lookup is modelled by
filtering the events of the source on the trigger sequence, which preserves the
source order of the grouped events. -/
def expandSource (ext : Ext) (cfg : SlotsConfig) (now before after : Int)
    (source : Source) (st : SlotStore) : List Call × SlotStore :=
  foldState (expandCall ext cfg source.events now before after) source.calls st

/-- Expand from internal/scheduler/scheduler.go lines 31-204: clear all slot
reservations, then expand every source; the slot store is threaded through the
whole expansion. -/
def expand (ext : Ext) (cfg : SlotsConfig) (sources : List Source)
    (now before after : Int) : List Call × SlotStore :=
  foldState (expandSource ext cfg now before after) sources clearAllSlots

/-! Poller, from internal/poller/poller.go. -/

/-- Result of one sourcer.Source fetch: an error message, or a possibly-nil parsed
source with its opaque state string. The none source models the invalid-document
return (nil, empty state, nil error) of sourcer.go lines 257-262, which signals a
document to skip without an error. -/
abbrev FetchResult : Type := Except String (Option Source × String)

/-- The known-state map of the poller (URL to last-seen state); a missing key reads
as the empty string, like a Go map zero value. -/
abbrev KnownState : Type := List (String × String)

/-- Reads the last-seen state for a URL, with the Go zero value for a missing key. -/
def knownOf (known : KnownState) (url : String) : String :=
  (lookupA known url).getD ""

/-- Stores the state for a URL, overwriting any previous entry. -/
def setKnown (known : KnownState) (url state : String) : KnownState :=
  (url, state) :: (known.filter (fun p => p.1 != url))

/-- pollURL from internal/poller/poller.go lines 51-63: a fetch error propagates; an
unchanged state yields no source and leaves the map unchanged; a changed state is
recorded and the fetched source is returned as-is, so a changed-but-invalid
document (none source) still rewrites the known state while contributing nothing. -/
def pollURL (fetch : String → FetchResult) (known : KnownState) (url : String) :
    Except String (Option Source) × KnownState :=
  match fetch url with
  | .error e => (.error e, known)
  | .ok r =>
    if knownOf known url == r.2 then (.ok none, known)
    else (.ok r.1, setKnown known url r.2)

/-- The URL loop of Poll: collects the changed sources in order and remembers the
last error seen. -/
def pollAux (fetch : String → FetchResult) : List String → KnownState → List Source →
    Option String → List Source × Option String × KnownState
  | [], known, acc, lastErr => (acc, lastErr, known)
  | url :: rest, known, acc, lastErr =>
    match pollURL fetch known url with
    | (.error e, known') => pollAux fetch rest known' acc (some e)
    | (.ok none, known') => pollAux fetch rest known' acc lastErr
    | (.ok (some src), known') => pollAux fetch rest known' (acc ++ [src]) lastErr

/-- Poll from internal/poller/poller.go lines 27-49: iterate all URLs, then return
the last error exactly when the collected source list is empty and some error was
seen; otherwise return the collected sources. -/
def poll (fetch : String → FetchResult) (urls : List String) (known : KnownState) :
    Except String (List Source) × KnownState :=
  let r := pollAux fetch urls known [] none
  match r.1, r.2.1 with
  | [], some e => (.error ("failed to poll any sources: " ++ e), r.2.2)
  | srcs, _ => (.ok srcs, r.2.2)

/-! Markdown-to-Slack conversion, from internal/processor/markdown_to_slack.go. -/

/- HTML nodes as walked by HTMLToMrkdwn: text nodes and element nodes with a tag,
attributes and children. The child list is a mutually inductive forest so that the
tree walk is structurally recursive. -/
mutual
inductive HNode where
  | text (s : String) : HNode
  | elem (tag : String) (attrs : List (String × String)) (children : HForest) : HNode
inductive HForest where
  | nil : HForest
  | cons (n : HNode) (rest : HForest) : HForest
end

/-- First href attribute value of an anchor, with the empty string when absent, as
in the attribute loop of HTMLToMrkdwn. -/
def hrefOf : List (String × String) → String
  | [] => ""
  | (k, v) :: rest => if k == "href" then v else hrefOf rest

/-- What HTMLToMrkdwn writes to the buffer before descending into an element. -/
def preWrite (tag : String) (attrs : List (String × String)) (buf : String) : String :=
  if tag == "p" then buf ++ "\n"
  else if tag == "h1" || tag == "h2" || tag == "h3" || tag == "h4" || tag == "h5" || tag == "h6" then
    buf ++ "*"
  else if tag == "a" then buf ++ "<" ++ hrefOf attrs ++ "|"
  else if tag == "li" then
    (if buf.length > 0 && buf.back != '\n' then buf ++ "\n" else buf) ++ "• "
  else if tag == "strong" || tag == "b" then buf ++ "*"
  else if tag == "em" || tag == "i" then buf ++ "_"
  else buf

/-- What HTMLToMrkdwn writes to the buffer after the children of an element. -/
def postWrite (tag : String) (buf : String) : String :=
  if tag == "h1" || tag == "h2" || tag == "h3" || tag == "h4" || tag == "h5" || tag == "h6" then
    buf ++ "*"
  else if tag == "a" then buf ++ ">"
  else if tag == "strong" || tag == "b" then buf ++ "*"
  else if tag == "em" || tag == "i" then buf ++ "_"
  else buf

/- The recursive tree walk of HTMLToMrkdwn (markdown_to_slack.go lines 38-87),
threading the output buffer. -/
mutual
def traverse : HNode → String → String
  | .text s, buf => buf ++ s
  | .elem tag attrs cs, buf => postWrite tag (traverseForest cs (preWrite tag attrs buf))
def traverseForest : HForest → String → String
  | .nil, buf => buf
  | .cons n rest, buf => traverseForest rest (traverse n buf)
end

/-- Surrounding-whitespace trim; models strings.TrimSpace. -/
def trimString (s : String) : String :=
  String.mk (((s.data.dropWhile Char.isWhitespace).reverse.dropWhile Char.isWhitespace).reverse)

/-- HTMLToMrkdwn from markdown_to_slack.go lines 31-91: walk the parsed tree from an
empty buffer and trim surrounding whitespace from the result. -/
def htmlToMrkdwn (doc : HNode) : String := trimString (traverse doc "")

/-! Hijri trigger expansion.

Modelled from the spec: the hijri branch of Scheduler.Expand and the Hijri and Time
fields of Trigger are exercised by internal/scheduler/scheduler_test.go
(TestSchedulerExpand_Hijri) but are absent from the sources available here. Spec
4.1.4: resolve the next forward occurrence of the (day, month-name) pair in the
Islamic calendar at or after now, combine it with the given time of day (or 00:00
UTC if absent), and emit one instance if the result is inside the window. The
choice of Islamic calendar variant is left open by the spec, so the occurrences of
the pair are a parameter: an ascending list of the UTC midnights at which the
(day, month-name) pair falls. -/

/-- Modelled from the spec: the next forward occurrence at or after now of a hijri
(day, month-name) pair, given the ascending list of its calendar occurrences. -/
def nextForwardOccurrence (occs : List Int) (now : Int) : Option Int :=
  (occs.filter (fun o => decide (now ≤ o))).head?

/-- Modelled from the spec: expansion of one hijri trigger. occs are the ascending
UTC midnights of the (day, month-name) pair; tod is the parsed time of day of the
trigger in seconds, none when the trigger has no time (which stands for 00:00 UTC);
the result is the list of emitted scheduled instants. -/
def expandHijri (occs : List Int) (tod : Option Int) (now before after : Int) : List Int :=
  match nextForwardOccurrence occs now with
  | none => []
  | some o =>
    let t := o + tod.getD 0
    if now - before ≤ t ∧ t < now + after then [t] else []

/-! Concrete instances used to evaluate the embedded code on explicit inputs. -/

/-- The Next function of the every-minute cron schedule (the expression with five
stars): the earliest minute boundary strictly after the argument. -/
def nextMinute (t : Int) : Int := 60 * t.fdiv 60 + 60

/-- A concrete external-library instance: the cron parser accepts only the
every-minute expression, the rrule library yields no occurrences, and the duration
parser accepts only the five-minute string. -/
def extTest : Ext where
  cronParse := fun s => if s == "* * * * *" then some nextMinute else none
  rruleOccurrences := fun _ _ _ _ => []
  parseDuration := fun s => if s == "5m" then some 300 else none

/-- Empty slot configuration: no viper slot keys are set. -/
def cfgEmpty : SlotsConfig := {}

/-- A slot configuration with a single global default entry: two Thursday slots, in
a UTC-equivalent location. -/
def cfgSlots : SlotsConfig where
  timezoneOffset := 0
  entries := [("slots.default", [("thursday", ["10:00", "16:00"])])]

/-- A source with one absolute trigger far outside every small window around
1000000. -/
def srcScheduledAt : Source where
  calls := [{ id := "call-1",
              triggers := [{ scheduledAt := some 1604800 }],
              destinations := [{ dtype := "slack", to_ := ["chan"] }] }]

/-- A source with one every-minute cron trigger. -/
def srcCron : Source where
  calls := [{ id := "call-2",
              triggers := [{ cron := "* * * * *" }],
              destinations := [{ dtype := "slack", to_ := ["chan"] }] }]

/-- A second cron source, for the id collision evaluation. -/
def srcCron5 : Source where
  calls := [{ id := "call-5",
              triggers := [{ cron := "* * * * *" }],
              destinations := [{ dtype := "slack", to_ := ["chan"] }] }]

/-- A source matching the event-sequence scenario of the spec: one event with an
email destination and one call triggered off the event with a slack destination. -/
def srcSeq : Source where
  calls := [{ id := "call-A",
              triggers := [{ sequence := "launch", delta := "5m" }],
              destinations := [{ dtype := "slack", to_ := ["general"] }] }]
  events := [{ sequence := "launch", startTime := 1000000,
               destinations := [{ dtype := "email", to_ := ["all@x"] }] }]

/-- A concrete fetcher: the first URL always fails, the second always succeeds with
a fixed state. -/
def fetchC7 (u : String) : FetchResult :=
  if u == "u1" then .error "boom"
  else if u == "u2" then .ok (some {}, "s1")
  else .error "other"

/-- Sources whose every trigger carries only a cron field (no absolute instant, no
rrule, no event sequence). -/
def cronOnlyTriggers (sources : List Source) : Prop :=
  ∀ src ∈ sources, ∀ cd ∈ src.calls, ∀ tg ∈ cd.triggers,
    tg.scheduledAt = none ∧ tg.rrule = "" ∧ tg.sequence = ""

/-! Theorems. -/

/-- Claim C1: HasBeenSent is claimed to return true for a prior record with status
sent, deleted or skipped. Evaluating the embedded code on each status shows that a
skipped record yields false, contradicting the scheduled-skip test of the repository
(cmd/scheduled_skip_test.go asserts HasBeenSent is true right after the skip command
records a skipped message); sent and deleted yield true, and failed or no record
yield false, so a failed dispatch does not block retry. -/
theorem hasBeenSent_skipped_not_blocking :
    hasBeenSent [(generateID "test-campaign" "test-call" "slack" "chan",
      { status := Status.skipped })] "test-campaign" "test-call" "slack" "chan" = false
    ∧ hasBeenSent [(generateID "test-campaign" "test-call" "slack" "chan",
      { status := Status.sent })] "test-campaign" "test-call" "slack" "chan" = true
    ∧ hasBeenSent [(generateID "test-campaign" "test-call" "slack" "chan",
      { status := Status.deleted })] "test-campaign" "test-call" "slack" "chan" = true
    ∧ hasBeenSent [(generateID "test-campaign" "test-call" "slack" "chan",
      { status := Status.failed })] "test-campaign" "test-call" "slack" "chan" = false
    ∧ hasBeenSent [] "test-campaign" "test-call" "slack" "chan" = false := by
  decide

/-- Claim C2, counterexample: an absolute scheduled_at trigger whose instant lies
far outside the window from now minus before to now plus after is nevertheless
emitted, at exactly that instant, so not every emitted scheduledAt lies in the
claimed half-open window. -/
theorem expand_scheduledAt_escapes_window :
    ((expand extTest cfgEmpty [srcScheduledAt] 1000000 60 120).1.map
      (fun c => c.scheduledAt)) = [1604800]
    ∧ ¬((1000000 : Int) - 60 ≤ 1604800 ∧ (1604800 : Int) < 1000000 + 120) := by
  decide

/-- Claim C3: for an event with sequence launch at instant 1000000 and a call with
trigger sequence launch and five-minute delta, the embedded Expand emits one
instance scheduled at 1000300 (start time plus delta) whose destination list holds
only the fanned-out destination of the call: the email destination of the event is not
merged in, because line 194 of scheduler.go overwrites the merge of line 192. -/
theorem expand_sequence_destinations_not_merged :
    ((expand extTest cfgEmpty [srcSeq] 1000000 60 86400).1.map
      (fun c => (c.scheduledAt, c.destinations)))
      = [((1000300 : Int), [{ dtype := "slack", to_ := ["general"] }])]
    ∧ ({ dtype := "email", to_ := ["all@x"] } : Destination)
        ∉ [({ dtype := "slack", to_ := ["general"] } : Destination)] := by
  decide

/-- Claim C4, counterexample: with the every-minute cron schedule, the window from
3540 to 3720 (now 3600, before 60, after 120) emits the occurrence falling exactly
at now plus after, so the window end is inclusive rather than exclusive. -/
theorem expand_cron_end_boundary_emitted :
    ((expand extTest cfgEmpty [srcCron] 3600 60 120).1.map (fun c => c.scheduledAt))
      = [3540, 3600, 3660, 3720]
    ∧ (3720 : Int) = 3600 + 120 := by
  decide

/-- Claim C5: the four distinct instances emitted for one every-minute cron trigger
inside the window (distinct scheduled instants) all carry the same synthesized id,
because the cron id of scheduler.go line 96 omits the occurrence instant; the test
of the repository (scheduler_test.go line 82) expects the occurrence instant
inside the cron id. -/
theorem expand_cron_ids_collide :
    ((expand extTest cfgEmpty [srcCron5] 3600 60 120).1.map (fun c => c.id))
      = ["call-5:cron:* * * * *:slack:chan", "call-5:cron:* * * * *:slack:chan",
         "call-5:cron:* * * * *:slack:chan", "call-5:cron:* * * * *:slack:chan"]
    ∧ ((expand extTest cfgEmpty [srcCron5] 3600 60 120).1.map
        (fun c => c.scheduledAt)).Nodup := by
  decide

/-- Claim C7, counterexample: with one URL failing and one URL fetching successfully
but unchanged, Poll returns the wrapped last error even though a URL succeeded, so a
successful-but-unchanged fetch does not make the error nil. -/
theorem poll_errors_despite_success :
    (poll fetchC7 ["u1", "u2"] [("u2", "s1")]).1
      = Except.error "failed to poll any sources: boom"
    ∧ fetchC7 "u2" = Except.ok (some {}, "s1") := by
  exact ⟨rfl, rfl⟩

/-! Helper lemmas about the expansion loops. -/

lemma mem_foldState {α β σ : Type} {f : α → σ → List β × σ} :
    ∀ {l : List α} {st : σ} {b : β}, b ∈ (foldState f l st).1 →
      ∃ a ∈ l, ∃ st', b ∈ (f a st').1 := by
  intro l
  induction l with
  | nil => intro st b h; simp [foldState] at h
  | cons a rest ih =>
    intro st b h
    have h' : b ∈ (f a st).1 ++ (foldState f rest (f a st).2).1 := h
    rcases List.mem_append.mp h' with h1 | h1
    · exact ⟨a, List.mem_cons_self a rest, st, h1⟩
    · obtain ⟨a', ha', st', hb⟩ := ih h1
      exact ⟨a', List.mem_cons_of_mem a ha', st', hb⟩

lemma foldState_singleton {α β σ : Type} {f : α → σ → List β × σ} {g : α → β}
    (hf : ∀ a st, f a st = ([g a], st)) :
    ∀ (l : List α) (st : σ), foldState f l st = (l.map g, st) := by
  intro l
  induction l with
  | nil => intro st; rfl
  | cons a rest ih => intro st; simp [foldState, hf a st, ih]

lemma cronLoop_mem_bounds {next : Int → Int} (hnext : ∀ t, t < next t) (endT : Int) :
    ∀ (fuel : Nat) (t0 x : Int), x ∈ cronLoop next endT fuel t0 → t0 ≤ x ∧ x ≤ endT := by
  intro fuel
  induction fuel with
  | zero => intro t0 x hx; simp [cronLoop] at hx
  | succ n ih =>
    intro t0 x hx
    by_cases h : t0 ≤ endT
    · simp only [cronLoop, if_pos h, List.mem_cons] at hx
      rcases hx with rfl | hx
      · exact ⟨le_refl _, h⟩
      · obtain ⟨h1, h2⟩ := ih (next t0) x hx
        exact ⟨le_trans (le_of_lt (hnext t0)) h1, h2⟩
    · simp [cronLoop, if_neg h] at hx

lemma cronLoop_mem_emod {next : Int → Int} (halign : ∀ t, (next t).emod 60 = 0) (endT : Int) :
    ∀ (fuel : Nat) (t0 : Int), t0.emod 60 = 0 → ∀ x ∈ cronLoop next endT fuel t0, x.emod 60 = 0 := by
  intro fuel
  induction fuel with
  | zero => intro t0 h0 x hx; simp [cronLoop] at hx
  | succ n ih =>
    intro t0 h0 x hx
    by_cases h : t0 ≤ endT
    · simp only [cronLoop, if_pos h, List.mem_cons] at hx
      rcases hx with rfl | hx
      · exact h0
      · exact ih (next t0) (halign t0) x hx
    · simp [cronLoop, if_neg h] at hx

lemma cronOccurrences_mem_bounds {next : Int → Int} (hnext : ∀ t, t < next t)
    {startT endT x : Int} (hx : x ∈ cronOccurrences next startT endT) :
    startT ≤ x ∧ x ≤ endT := by
  unfold cronOccurrences at hx
  obtain ⟨h1, h2⟩ := cronLoop_mem_bounds hnext endT _ _ _ hx
  refine ⟨?_, h2⟩
  have := hnext (startT - 1)
  omega

lemma cronOccurrences_mem_emod {next : Int → Int} (halign : ∀ t, (next t).emod 60 = 0)
    {startT endT x : Int} (hx : x ∈ cronOccurrences next startT endT) :
    x.emod 60 = 0 := by
  unfold cronOccurrences at hx
  exact cronLoop_mem_emod halign endT _ _ (halign (startT - 1)) x hx

lemma cronOccurrences_start_mem {next : Int → Int} {startT endT : Int}
    (h : next (startT - 1) ≤ endT) :
    next (startT - 1) ∈ cronOccurrences next startT endT := by
  unfold cronOccurrences
  obtain ⟨n, hn⟩ : ∃ n, (endT + 1 - next (startT - 1)).toNat = n + 1 :=
    ⟨(endT - next (startT - 1)).toNat, by omega⟩
  rw [hn]
  simp [cronLoop, h]

lemma cronLoop_fuel_irrelevant {next : Int → Int} (hnext : ∀ t, t < next t) (endT : Int) :
    ∀ (f1 f2 : Nat) (t : Int), (endT + 1 - t).toNat ≤ f1 → (endT + 1 - t).toNat ≤ f2 →
      cronLoop next endT f1 t = cronLoop next endT f2 t := by
  intro f1
  induction f1 with
  | zero =>
    intro f2 t h1 h2
    have ht : ¬ t ≤ endT := by omega
    cases f2 with
    | zero => rfl
    | succ m => simp [cronLoop, ht]
  | succ n ih =>
    intro f2 t h1 h2
    by_cases ht : t ≤ endT
    · obtain ⟨m, rfl⟩ : ∃ m, f2 = m + 1 := by
        cases f2 with
        | zero => exact absurd h2 (by omega)
        | succ m => exact ⟨m, rfl⟩
      simp only [cronLoop, if_pos ht]
      have hstep := hnext t
      exact congrArg (t :: ·) (ih m (next t) (by omega) (by omega))
    · cases f2 with
      | zero => simp [cronLoop, ht]
      | succ m => simp [cronLoop, ht]

lemma slotsFor_entries_nil {cfg : SlotsConfig} (h : cfg.entries = []) (ty to0 : String) :
    slotsFor cfg ty to0 = none := by
  simp [slotsFor, h, lookupA]

lemma findNextAvailableSlot_entries_nil {cfg : SlotsConfig} (h : cfg.entries = [])
    (call : Call) (dest : Destination) (sA now : Int) (st : SlotStore) :
    findNextAvailableSlot cfg call dest sA now st = (some sA, st) := by
  simp [findNextAvailableSlot, slotsFor_entries_nil h]

lemma emitCronOccurrence_entries_nil {cfg : SlotsConfig} (h : cfg.entries = [])
    (cd : Call) (trig : Trigger) (dest : Destination) (now t : Int) (st : SlotStore) :
    emitCronOccurrence cfg cd trig dest now t st =
      ([{ createCallFromDefinition cd with
          scheduledAt := truncMinute t,
          id := cd.id ++ ":cron:" ++ trig.cron ++ ":" ++ dest.dtype ++ ":" ++ head0 dest.to_,
          destinations := [dest] }], st) := by
  by_cases hm : isMidnight (truncMinute t) <;>
    simp [emitCronOccurrence, hm, findNextAvailableSlot_entries_nil h]

lemma expandCron_entries_nil {ext : Ext} {cfg : SlotsConfig} {cd : Call} {trig : Trigger}
    {dest : Destination} {now before after : Int} {st : SlotStore} {next : Int → Int}
    (h : cfg.entries = []) (hc : ¬ trig.cron = "") (hp : ext.cronParse trig.cron = some next) :
    expandCron ext cfg cd trig dest now before after st =
      ((cronOccurrences next (now - before) (now + after)).map (fun t =>
        { createCallFromDefinition cd with
          scheduledAt := truncMinute t,
          id := cd.id ++ ":cron:" ++ trig.cron ++ ":" ++ dest.dtype ++ ":" ++ head0 dest.to_,
          destinations := [dest] }), st) := by
  simp only [expandCron, beq_iff_eq, if_neg hc, hp]
  exact foldState_singleton (fun t st' => emitCronOccurrence_entries_nil h cd trig dest now t st') _ st

lemma expandScheduledAt_none {cfg : SlotsConfig} {cd : Call} {trig : Trigger}
    {dest : Destination} {now : Int} {st : SlotStore} (h : trig.scheduledAt = none) :
    expandScheduledAt cfg cd trig dest now st = ([], st) := by
  simp [expandScheduledAt, h]

lemma expandRRule_empty {ext : Ext} {cfg : SlotsConfig} {cd : Call} {trig : Trigger}
    {dest : Destination} {now before after : Int} {st : SlotStore} (h : trig.rrule = "") :
    expandRRule ext cfg cd trig dest now before after st = ([], st) := by
  simp [expandRRule, h]

lemma expandSequence_empty {ext : Ext} {cd : Call} {trig : Trigger} {dest : Destination}
    {events : List Event} {st : SlotStore} (h : trig.sequence = "") :
    expandSequence ext cd trig dest events st = ([], st) := by
  simp [expandSequence, h]

lemma map_eq_self_of_mem {α : Type} {l : List α} {f : α → α} (h : ∀ x ∈ l, f x = x) :
    l.map f = l := by
  induction l with
  | nil => rfl
  | cons a rest ih =>
    simp only [List.map_cons, h a (List.mem_cons_self a rest)]
    rw [ih (fun x hx => h x (List.mem_cons_of_mem a hx))]

lemma nextMinute_gt (t : Int) : t < nextMinute t := by
  have h := Int.fdiv_add_fmod t 60
  have h1 : t.fmod 60 < 60 := Int.fmod_lt_of_pos t (by norm_num)
  unfold nextMinute
  omega

lemma nextMinute_emod (t : Int) : (nextMinute t).emod 60 = 0 := by
  unfold nextMinute
  have h : 60 * t.fdiv 60 + 60 = 60 * (t.fdiv 60 + 1) := by ring
  rw [h]
  exact Int.mul_emod_right 60 _

lemma extTest_cronNext : ∀ s next, extTest.cronParse s = some next →
    (∀ t, t < next t) ∧ ∀ t, (next t).emod 60 = 0 := by
  intro s next hp
  unfold extTest at hp
  by_cases hs : s == "* * * * *"
  · simp only [hs, if_pos, Option.some.injEq] at hp
    subst hp
    exact ⟨nextMinute_gt, nextMinute_emod⟩
  · simp [hs] at hp

/-- Claim C2, amended: the window confinement claimed for every trigger kind holds
only for cron triggers, and with a closed upper end. For cron-only sources with the
slot grid unconfigured and a cron schedule whose occurrences are strictly
increasing and minute-aligned, every emitted scheduledAt lies in the closed
interval from now minus before to now plus after; instances from absolute
scheduled_at triggers ignore the window entirely and are emitted exactly at the
trigger instant (the branch does not even receive the window). -/
theorem expand_window_confinement_amended :
    (∀ (ext : Ext) (cfg : SlotsConfig) (sources : List Source) (now before after : Int),
      cfg.entries = [] → cronOnlyTriggers sources →
      (∀ s next, ext.cronParse s = some next →
        (∀ t, t < next t) ∧ ∀ t, (next t).emod 60 = 0) →
      ∀ c ∈ (expand ext cfg sources now before after).1,
        now - before ≤ c.scheduledAt ∧ c.scheduledAt ≤ now + after)
    ∧ (∀ (cfg : SlotsConfig) (cd : Call) (trig : Trigger) (dest : Destination)
        (now : Int) (st : SlotStore) (ts : Int),
        trig.scheduledAt = some ts → isMidnight ts = false →
        (expandScheduledAt cfg cd trig dest now st).1.map (fun c => c.scheduledAt) = [ts]) := by
  constructor
  · intro ext cfg sources now before after hcfg honly hext c hc
    unfold expand at hc
    obtain ⟨src, hsrc, st1, hc⟩ := mem_foldState hc
    unfold expandSource at hc
    obtain ⟨cd, hcd, st2, hc⟩ := mem_foldState hc
    unfold expandCall at hc
    obtain ⟨trig, htrig, st3, hc⟩ := mem_foldState hc
    obtain ⟨dest, hdest, st4, hc⟩ := mem_foldState hc
    obtain ⟨hsa, hrr, hsq⟩ := honly src hsrc cd hcd trig htrig
    unfold expandTriggerDest at hc
    simp only [expandScheduledAt_none hsa] at hc
    by_cases hcron : trig.cron = ""
    · simp [expandCron, hcron, expandRRule_empty hrr, expandSequence_empty hsq] at hc
    · cases hp : ext.cronParse trig.cron with
      | none =>
        simp [expandCron, hcron, hp, expandRRule_empty hrr, expandSequence_empty hsq] at hc
      | some next =>
        simp only [expandCron_entries_nil hcfg hcron hp, expandRRule_empty hrr,
          expandSequence_empty hsq, List.append_nil, List.nil_append] at hc
        simp only [List.mem_map] at hc
        obtain ⟨x, hx, rfl⟩ := hc
        obtain ⟨hi, ha⟩ := hext trig.cron next hp
        obtain ⟨hb1, hb2⟩ := cronOccurrences_mem_bounds hi hx
        have he := cronOccurrences_mem_emod ha hx
        show now - before ≤ truncMinute x ∧ truncMinute x ≤ now + after
        unfold truncMinute
        omega
  · intro cfg cd trig dest now st ts hts hmid
    simp [expandScheduledAt, hts, hmid]

/-- Witness for the amended C2 theorem: a concrete cron-only expansion with the
every-minute schedule, whose first emitted instance lies in the closed window. -/
theorem expand_window_confinement_amended_witness :
    ({ id := "call-2:cron:* * * * *:slack:chan", campaign := { name := "announcements" },
       destinations := [{ dtype := "slack", to_ := ["chan"] }], scheduledAt := 3540 } : Call)
        ∈ (expand extTest cfgEmpty [srcCron] 3600 60 120).1
    ∧ ((3600 : Int) - 60 ≤ 3540 ∧ (3540 : Int) ≤ 3600 + 120) := by
  refine ⟨by decide, ?_⟩
  exact expand_window_confinement_amended.1 extTest cfgEmpty [srcCron] 3600 60 120 rfl
    (by unfold cronOnlyTriggers; decide) extTest_cronNext
    { id := "call-2:cron:* * * * *:slack:chan", campaign := { name := "announcements" },
      destinations := [{ dtype := "slack", to_ := ["chan"] }], scheduledAt := 3540 }
    (by decide)

/-- Claim C4, amended: cron occurrences are emitted for the window with inclusive
start and inclusive (not exclusive) end. With the slot grid unconfigured and a
strictly increasing minute-aligned schedule, the emitted instants are exactly the
loop occurrences, every occurrence lies between now minus before and now plus after
inclusive and equals its own minute truncation, and the first occurrence at or
after the window start is emitted whenever it does not exceed the window end (so an
occurrence falling exactly at the window start is emitted). -/
theorem expand_cron_window_closed :
    ∀ (ext : Ext) (cfg : SlotsConfig) (cd : Call) (trig : Trigger) (dest : Destination)
      (now before after : Int) (st : SlotStore) (next : Int → Int),
      cfg.entries = [] → ¬ trig.cron = "" → ext.cronParse trig.cron = some next →
      (∀ t, t < next t) → (∀ t, (next t).emod 60 = 0) →
      ((expandCron ext cfg cd trig dest now before after st).1.map (fun c => c.scheduledAt)
          = cronOccurrences next (now - before) (now + after))
      ∧ (∀ x ∈ cronOccurrences next (now - before) (now + after),
          now - before ≤ x ∧ x ≤ now + after ∧ truncMinute x = x)
      ∧ (next (now - before - 1) ≤ now + after →
          next (now - before - 1) ∈ cronOccurrences next (now - before) (now + after)) := by
  intro ext cfg cd trig dest now before after st next hcfg hc hp hnext halign
  refine ⟨?_, ?_, ?_⟩
  · rw [expandCron_entries_nil hcfg hc hp]
    simp only [List.map_map]
    apply map_eq_self_of_mem
    intro x hx
    have he := cronOccurrences_mem_emod halign hx
    show truncMinute x = x
    unfold truncMinute
    omega
  · intro x hx
    obtain ⟨h1, h2⟩ := cronOccurrences_mem_bounds hnext hx
    have he := cronOccurrences_mem_emod halign hx
    refine ⟨h1, h2, ?_⟩
    unfold truncMinute
    omega
  · exact fun hle => cronOccurrences_start_mem hle

/-- Witness for the amended C4 theorem: the concrete every-minute expansion over
the window from 3540 to 3720 emits exactly the loop occurrences. -/
theorem expand_cron_window_closed_witness :
    (expandCron extTest cfgEmpty {} { cron := "* * * * *" }
        { dtype := "slack", to_ := ["chan"] } 3600 60 120 []).1.map (fun c => c.scheduledAt)
      = cronOccurrences nextMinute (3600 - 60) (3600 + 120) :=
  (expand_cron_window_closed extTest cfgEmpty {} { cron := "* * * * *" }
    { dtype := "slack", to_ := ["chan"] } 3600 60 120 [] nextMinute
    rfl (by decide) rfl nextMinute_gt nextMinute_emod).1

/-! Helper lemmas about the slot search. -/

lemma searchSlots_spec (key : String) (d now : Int) (l : List String) : ∀ st : SlotStore,
    searchSlots key d now l st = (none, st) ∨
    ∃ t, searchSlots key d now l st = (some t, (t, key) :: st) ∧ lookupSlot st t = none := by
  induction l with
  | nil => intro st; left; rfl
  | cons s rest ih =>
    intro st
    cases hsp : splitColon s with
    | nil => simpa [searchSlots, hsp] using ih st
    | cons hs tl =>
      cases tl with
      | nil => simpa [searchSlots, hsp] using ih st
      | cons ms tl2 =>
        cases tl2 with
        | cons a b => simpa [searchSlots, hsp] using ih st
        | nil =>
          simp only [searchSlots, hsp]
          by_cases hlt : d + parseSlotPart hs * 3600 + parseSlotPart ms * 60 < now
          · simpa [hlt] using ih st
          · cases hls : lookupSlot st (d + parseSlotPart hs * 3600 + parseSlotPart ms * 60) with
            | some v =>
              simpa [hlt, reserveSlot, hls] using ih st
            | none =>
              right
              exact ⟨d + parseSlotPart hs * 3600 + parseSlotPart ms * 60,
                by simp [hlt, reserveSlot, hls], hls⟩

lemma searchDays_spec (cfg : SlotsConfig) (sbd : List (String × List String)) (key : String)
    (schedDay now : Int) (l : List Nat) : ∀ st : SlotStore,
    searchDays cfg sbd key schedDay now l st = (none, st) ∨
    ∃ t, searchDays cfg sbd key schedDay now l st = (some t, (t, key) :: st) ∧
      lookupSlot st t = none := by
  induction l with
  | nil => intro st; left; rfl
  | cons i rest ih =>
    intro st
    cases hlw : lookupA sbd (weekdayName (schedDay + (i : Int))) with
    | none => simpa only [searchDays, hlw] using ih st
    | some slots =>
      rcases searchSlots_spec key ((schedDay + (i : Int)) * 86400 - cfg.timezoneOffset * 60)
          now slots st with hss | ⟨t, hss, hl⟩
      · simpa only [searchDays, hlw, hss] using ih st
      · right
        exact ⟨t, by simp only [searchDays, hlw, hss], hl⟩

lemma findNextAvailableSlot_spec {cfg : SlotsConfig} {call : Call} {dest : Destination}
    {sA now : Int} {st : SlotStore} {sbd : List (String × List String)}
    (hcfg : slotsFor cfg dest.dtype (head0 dest.to_) = some sbd) (hne : sbd.isEmpty = false) :
    findNextAvailableSlot cfg call dest sA now st = (none, st) ∨
    ∃ t, findNextAvailableSlot cfg call dest sA now st
        = (some t, (t, dest.dtype ++ ":" ++ head0 dest.to_) :: st) ∧
      lookupSlot st t = none := by
  unfold findNextAvailableSlot
  rw [hcfg]
  simp only [hne, Bool.false_eq_true, if_false]
  exact searchDays_spec cfg sbd (dest.dtype ++ ":" ++ head0 dest.to_)
    (sA.fdiv 86400) now (List.range 365) st

/-- Claim C6: ReserveSlot is compare-and-set: it returns true and inserts exactly
when the slot key was absent, and false leaving the bucket unchanged when present;
consequently, when slot configuration applies to both destinations, two successful
findNextAvailableSlot calls within one refresh cycle (the second running on the
store produced by the first, with no ClearAllSlots in between) never return the
same slot instant, so no slot is assigned to two (destType, recipient) keys. -/
theorem reserveSlot_cas_and_slot_unique :
    (∀ (st : SlotStore) (slot : Int) (key : String),
      (lookupSlot st slot = none → reserveSlot st slot key = (true, (slot, key) :: st))
      ∧ ∀ v, lookupSlot st slot = some v → reserveSlot st slot key = (false, st))
    ∧ (∀ (cfg : SlotsConfig) (c1 c2 : Call) (d1 d2 : Destination) (sA1 sA2 n1 n2 : Int)
        (st st1 st2 : SlotStore) (t1 t2 : Int) (sbd1 sbd2 : List (String × List String)),
        slotsFor cfg d1.dtype (head0 d1.to_) = some sbd1 → sbd1.isEmpty = false →
        slotsFor cfg d2.dtype (head0 d2.to_) = some sbd2 → sbd2.isEmpty = false →
        findNextAvailableSlot cfg c1 d1 sA1 n1 st = (some t1, st1) →
        findNextAvailableSlot cfg c2 d2 sA2 n2 st1 = (some t2, st2) →
        t1 ≠ t2) := by
  constructor
  · intro st slot key
    constructor
    · intro h; simp [reserveSlot, h]
    · intro v h; simp [reserveSlot, h]
  · intro cfg c1 c2 d1 d2 sA1 sA2 n1 n2 st st1 st2 t1 t2 sbd1 sbd2 h1 h1e h2 h2e hf1 hf2
    rcases @findNextAvailableSlot_spec cfg c1 d1 sA1 n1 st sbd1 h1 h1e
      with hn | ⟨t, heq, hl⟩
    · rw [hf1] at hn; simp at hn
    · rw [hf1] at heq
      injection heq with ht hst
      injection ht with ht
      subst ht
      rcases @findNextAvailableSlot_spec cfg c2 d2 sA2 n2 st1 sbd2 h2 h2e
        with hn2 | ⟨t', heq2, hl2⟩
      · rw [hf2] at hn2; simp at hn2
      · rw [hf2] at heq2
        injection heq2 with ht2 hst2
        injection ht2 with ht2
        subst ht2
        intro hcontra
        subst hcontra
        rw [hst] at hl2
        simp [lookupSlot] at hl2

/-- Witness for the C6 theorem: the concrete Thursday slot grid assigns 10:00 to
the first destination and 16:00 to the second; the two successful reservations
return distinct slots. -/
theorem reserveSlot_cas_and_slot_unique_witness :
    reserveSlot [] 36000 "slack:chan" = (true, [(36000, "slack:chan")])
    ∧ (36000 : Int) ≠ 57600 := by
  refine ⟨(reserveSlot_cas_and_slot_unique.1 [] 36000 "slack:chan").1 rfl, ?_⟩
  exact reserveSlot_cas_and_slot_unique.2 cfgSlots {} {}
    { dtype := "slack", to_ := ["chan"] } { dtype := "email", to_ := ["u@x"] }
    0 0 0 0 [] [(36000, "slack:chan")] [(57600, "email:u@x"), (36000, "slack:chan")]
    36000 57600 [("thursday", ["10:00", "16:00"])] [("thursday", ["10:00", "16:00"])]
    rfl rfl rfl rfl (by decide) (by decide)

/-! Helper lemmas about the poller loop. -/

lemma pollURL_error {fetch : String → FetchResult} {known : KnownState} {u : String}
    {e : String} (hfu : fetch u = .error e) :
    pollURL fetch known u = (Except.error e, known) := by
  simp [pollURL, hfu]

lemma pollURL_unchanged {fetch : String → FetchResult} {known : KnownState} {u : String}
    {r : Option Source × String} (hfu : fetch u = .ok r)
    (hch : (knownOf known u == r.2) = true) :
    pollURL fetch known u = (Except.ok none, known) := by
  simp only [pollURL, hfu]
  rw [if_pos hch]

lemma pollURL_changed {fetch : String → FetchResult} {known : KnownState} {u : String}
    {r : Option Source × String} (hfu : fetch u = .ok r)
    (hch : ¬ (knownOf known u == r.2) = true) :
    pollURL fetch known u = (Except.ok r.1, setKnown known u r.2) := by
  simp only [pollURL, hfu]
  rw [if_neg hch]

lemma lookupA_filter_ne {α : Type} {k u : String} (h : ¬ k = u) :
    ∀ l : List (String × α), lookupA (l.filter (fun p => p.1 != u)) k = lookupA l k := by
  intro l
  induction l with
  | nil => rfl
  | cons p rest ih =>
    by_cases hp : p.1 = u
    · have hf : (p.1 != u) = false := by simp [hp]
      have hbk : (p.1 == k) = false := by
        simp only [beq_eq_false_iff_ne, ne_eq, hp]
        intro he
        exact h he.symm
      simp [List.filter_cons, hf, lookupA, hbk, ih]
    · have hf : (p.1 != u) = true := by simp [hp]
      by_cases hbk : p.1 = k
      · simp [List.filter_cons, hf, lookupA, hbk, h]
      · have hbk' : (p.1 == k) = false := by simp [hbk]
        simp [List.filter_cons, hf, lookupA, hbk', ih]

lemma knownOf_setKnown_ne {known : KnownState} {u u' s : String} (h : ¬ u' = u) :
    knownOf (setKnown known u s) u' = knownOf known u' := by
  unfold knownOf setKnown
  have hb : (u == u') = false := by
    simp only [beq_eq_false_iff_ne, ne_eq]
    intro he
    exact h he.symm
  simp only [lookupA, hb, Bool.false_eq_true, if_false]
  rw [lookupA_filter_ne h known]

lemma fetchCond_setKnown {fetch : String → FetchResult} {u : String}
    {r : Option Source × String} (hfu : fetch u = .ok r) (hnone : r.1 = none)
    (known : KnownState) (u' : String) :
    ((∃ e, fetch u' = .error e) ∨
      ∃ r', fetch u' = .ok r' ∧ (knownOf (setKnown known u r.2) u' = r'.2 ∨ r'.1 = none))
    ↔ ((∃ e, fetch u' = .error e) ∨
      ∃ r', fetch u' = .ok r' ∧ (knownOf known u' = r'.2 ∨ r'.1 = none)) := by
  by_cases hu : u' = u
  · subst hu
    constructor
    · intro _
      exact Or.inr ⟨r, hfu, Or.inr hnone⟩
    · intro _
      exact Or.inr ⟨r, hfu, Or.inr hnone⟩
  · rw [knownOf_setKnown_ne hu]

lemma pollAux_acc_grows (fetch : String → FetchResult) :
    ∀ (urls : List String) (known : KnownState) (acc : List Source) (le : Option String),
      ∃ extra, (pollAux fetch urls known acc le).1 = acc ++ extra := by
  intro urls
  induction urls with
  | nil => intro known acc le; exact ⟨[], by simp [pollAux]⟩
  | cons u rest ih =>
    intro known acc le
    cases hfu : fetch u with
    | error e =>
      simpa only [pollAux, pollURL_error hfu] using ih known acc (some e)
    | ok r =>
      by_cases hch : (knownOf known u == r.2) = true
      · simpa only [pollAux, pollURL_unchanged hfu hch] using ih known acc le
      · cases hr1 : r.1 with
        | none =>
          have hred := pollURL_changed hfu hch
          rw [hr1] at hred
          simpa only [pollAux, hred] using ih (setKnown known u r.2) acc le
        | some src =>
          have hred := pollURL_changed hfu hch
          rw [hr1] at hred
          obtain ⟨extra, hx⟩ := ih (setKnown known u r.2) (acc ++ [src]) le
          refine ⟨[src] ++ extra, ?_⟩
          simp only [pollAux, hred]
          rw [hx, List.append_assoc]

lemma pollAux_err_isSome (fetch : String → FetchResult) :
    ∀ (urls : List String) (known : KnownState) (acc : List Source) (le : Option String),
      ((pollAux fetch urls known acc le).2.1).isSome = true ↔
        (le.isSome = true ∨ ∃ u ∈ urls, ∃ e, fetch u = .error e) := by
  intro urls
  induction urls with
  | nil =>
    intro known acc le
    simp [pollAux]
  | cons u rest ih =>
    intro known acc le
    cases hfu : fetch u with
    | error e =>
      simp only [pollAux, pollURL_error hfu]
      constructor
      · intro _
        exact Or.inr ⟨u, List.mem_cons_self u rest, e, hfu⟩
      · intro _
        rw [ih known acc (some e)]
        exact Or.inl rfl
    | ok r =>
      have hne : ∀ e, ¬ fetch u = .error e := by
        intro e he; rw [hfu] at he; exact nomatch he
      have hstep : ∀ (known1 : KnownState) (acc1 : List Source),
          ((pollAux fetch rest known1 acc1 le).2.1).isSome = true ↔
            (le.isSome = true ∨ ∃ u' ∈ u :: rest, ∃ e, fetch u' = .error e) := by
        intro known1 acc1
        rw [ih]
        simp only [List.mem_cons]
        constructor
        · rintro (hle | ⟨u', hu', e, he⟩)
          · exact Or.inl hle
          · exact Or.inr ⟨u', Or.inr hu', e, he⟩
        · rintro (hle | ⟨u', hu', e, he⟩)
          · exact Or.inl hle
          · rcases hu' with rfl | hu'
            · exact absurd he (hne e)
            · exact Or.inr ⟨u', hu', e, he⟩
      by_cases hch : (knownOf known u == r.2) = true
      · simp only [pollAux, pollURL_unchanged hfu hch]
        exact hstep known acc
      · cases hr1 : r.1 with
        | none =>
          have hred := pollURL_changed hfu hch
          rw [hr1] at hred
          simp only [pollAux, hred]
          exact hstep (setKnown known u r.2) acc
        | some src =>
          have hred := pollURL_changed hfu hch
          rw [hr1] at hred
          simp only [pollAux, hred]
          exact hstep (setKnown known u r.2) (acc ++ [src])

lemma pollAux_collected_nil (fetch : String → FetchResult) :
    ∀ (urls : List String) (known : KnownState) (acc : List Source) (le : Option String),
      (pollAux fetch urls known acc le).1 = [] ↔
        (acc = [] ∧ ∀ u ∈ urls, (∃ e, fetch u = .error e) ∨
          ∃ r, fetch u = .ok r ∧ (knownOf known u = r.2 ∨ r.1 = none)) := by
  intro urls
  induction urls with
  | nil =>
    intro known acc le
    simp [pollAux]
  | cons u rest ih =>
    intro known acc le
    cases hfu : fetch u with
    | error e =>
      simp only [pollAux, pollURL_error hfu]
      rw [ih]
      simp only [List.mem_cons]
      constructor
      · rintro ⟨ha, hrest⟩
        refine ⟨ha, ?_⟩
        rintro u' (rfl | hu')
        · exact Or.inl ⟨e, hfu⟩
        · exact hrest u' hu'
      · rintro ⟨ha, hall⟩
        exact ⟨ha, fun u' hu' => hall u' (Or.inr hu')⟩
    | ok r =>
      have hne : ∀ e, ¬ fetch u = .error e := by
        intro e he; rw [hfu] at he; exact nomatch he
      by_cases hch : (knownOf known u == r.2) = true
      · simp only [pollAux, pollURL_unchanged hfu hch]
        rw [ih]
        simp only [List.mem_cons]
        constructor
        · rintro ⟨ha, hrest⟩
          refine ⟨ha, ?_⟩
          rintro u' (rfl | hu')
          · exact Or.inr ⟨r, hfu, Or.inl (by simpa using hch)⟩
          · exact hrest u' hu'
        · rintro ⟨ha, hall⟩
          exact ⟨ha, fun u' hu' => hall u' (Or.inr hu')⟩
      · cases hr1 : r.1 with
        | none =>
          have hred := pollURL_changed hfu hch
          rw [hr1] at hred
          simp only [pollAux, hred]
          rw [ih]
          simp only [List.mem_cons]
          constructor
          · rintro ⟨ha, hrest⟩
            refine ⟨ha, ?_⟩
            rintro u' (rfl | hu')
            · exact Or.inr ⟨r, hfu, Or.inr hr1⟩
            · exact (fetchCond_setKnown hfu hr1 known u').mp (hrest u' hu')
          · rintro ⟨ha, hall⟩
            refine ⟨ha, ?_⟩
            intro u' hu'
            exact (fetchCond_setKnown hfu hr1 known u').mpr (hall u' (Or.inr hu'))
        | some src =>
          have hred := pollURL_changed hfu hch
          rw [hr1] at hred
          simp only [pollAux, hred]
          constructor
          · intro hnil
            obtain ⟨extra, hx⟩ :=
              pollAux_acc_grows fetch rest (setKnown known u r.2) (acc ++ [src]) le
            rw [hx] at hnil
            exact absurd hnil (by simp)
          · rintro ⟨ha, hall⟩
            rcases hall u (List.mem_cons_self u rest) with ⟨e, he⟩ | ⟨r', hr', hcond⟩
            · exact absurd he (hne e)
            · rw [hfu] at hr'
              injection hr' with hr'
              subst hr'
              rcases hcond with hk | hn
              · exact absurd hk (by simpa using hch)
              · rw [hr1] at hn
                exact nomatch hn

/-- Claim C7, amended: Poll returns an error exactly when at least one URL failed to
fetch and no URL contributed a source; a URL that fetches successfully contributes
nothing both when its state is unchanged and when its changed document is invalid
(a nil source), so neither prevents the error. Formally: the result is an error if
and only if some URL fetch fails and every URL either fails, or returns a state
equal to the remembered one, or returns a nil source. -/
theorem poll_error_characterization :
    ∀ (fetch : String → FetchResult) (urls : List String) (known : KnownState),
      (∃ e, (poll fetch urls known).1 = Except.error e) ↔
        ((∃ u ∈ urls, ∃ e, fetch u = Except.error e)
         ∧ ∀ u ∈ urls, (∃ e, fetch u = Except.error e)
             ∨ ∃ r, fetch u = Except.ok r ∧ (knownOf known u = r.2 ∨ r.1 = none)) := by
  intro fetch urls known
  have hnil := pollAux_collected_nil fetch urls known [] none
  have herr := pollAux_err_isSome fetch urls known [] none
  simp only [Option.isSome_none, Bool.false_eq_true, false_or] at herr
  unfold poll
  rcases hr1 : (pollAux fetch urls known [] none).1 with _ | ⟨s, srcs⟩ <;>
    rcases hr2 : (pollAux fetch urls known [] none).2.1 with _ | e
  · simp only [hr1, hr2]
    constructor
    · rintro ⟨e, he⟩; exact nomatch he
    · rintro ⟨⟨u, hu, e, he⟩, -⟩
      have hsome := herr.mpr ⟨u, hu, e, he⟩
      rw [hr2] at hsome
      exact absurd hsome (by simp)
  · simp only [hr1, hr2]
    constructor
    · intro _
      exact ⟨herr.mp (by rw [hr2]; rfl), (hnil.mp (by rw [hr1])).2⟩
    · intro _
      exact ⟨"failed to poll any sources: " ++ e, rfl⟩
  · simp only [hr1, hr2]
    constructor
    · rintro ⟨e, he⟩; exact nomatch he
    · rintro ⟨⟨u, hu, e, he⟩, -⟩
      have hsome := herr.mpr ⟨u, hu, e, he⟩
      rw [hr2] at hsome
      exact absurd hsome (by simp)
  · simp only [hr1, hr2]
    constructor
    · rintro ⟨e', he'⟩; exact nomatch he'
    · rintro ⟨-, hall⟩
      have hcontra : (pollAux fetch urls known [] none).1 = [] := hnil.mpr ⟨rfl, hall⟩
      rw [hr1] at hcontra
      exact nomatch hcontra

/-! Helper lemma for the hijri model. -/

lemma head?_filter_ge {occs : List Int} {now o : Int} (hs : List.Sorted (· ≤ ·) occs)
    (h : (occs.filter (fun x => decide (now ≤ x))).head? = some o) :
    o ∈ occs ∧ now ≤ o ∧ ∀ o' ∈ occs, now ≤ o' → o ≤ o' := by
  induction occs with
  | nil => simp at h
  | cons a rest ih =>
    rw [List.sorted_cons] at hs
    obtain ⟨ha, hrest⟩ := hs
    by_cases hna : now ≤ a
    · rw [List.filter_cons, if_pos (by simpa using hna)] at h
      simp only [List.head?_cons, Option.some.injEq] at h
      subst h
      refine ⟨List.mem_cons_self a rest, hna, ?_⟩
      intro o' ho' hno'
      rcases List.mem_cons.mp ho' with rfl | ho'
      · exact le_refl o'
      · exact ha o' ho'
    · rw [List.filter_cons, if_neg (by simpa using hna)] at h
      obtain ⟨hm, hge, hmin⟩ := ih hrest h
      refine ⟨List.mem_cons_of_mem a hm, hge, ?_⟩
      intro o' ho' hno'
      rcases List.mem_cons.mp ho' with rfl | ho'
      · exact absurd hno' hna
      · exact hmin o' ho' hno'

/-- Claim C8: for a hijri trigger, the expansion resolves the least calendar
occurrence of the (day, month-name) pair at or after now, adds the trigger time
of day (00:00 UTC when absent), and emits exactly one instance at that instant
when it lies in the half-open window, none otherwise. (Spec-modelled: the hijri
branch is absent from the sources; see the comment on expandHijri.) -/
theorem expandHijri_next_forward_in_window :
    ∀ (occs : List Int) (tod : Option Int) (now before after : Int),
      List.Sorted (· ≤ ·) occs →
      (∀ t ∈ expandHijri occs tod now before after,
        ∃ o, nextForwardOccurrence occs now = some o ∧ o ∈ occs ∧ now ≤ o ∧
          (∀ o' ∈ occs, now ≤ o' → o ≤ o') ∧ t = o + tod.getD 0 ∧
          now - before ≤ t ∧ t < now + after)
      ∧ (∀ o, nextForwardOccurrence occs now = some o →
          (now - before ≤ o + tod.getD 0 ∧ o + tod.getD 0 < now + after →
            expandHijri occs tod now before after = [o + tod.getD 0])
          ∧ (¬ (now - before ≤ o + tod.getD 0 ∧ o + tod.getD 0 < now + after) →
            expandHijri occs tod now before after = [])) := by
  intro occs tod now before after hs
  constructor
  · intro t ht
    cases hn : nextForwardOccurrence occs now with
    | none => simp [expandHijri, hn] at ht
    | some o =>
      simp only [expandHijri, hn] at ht
      by_cases hw : now - before ≤ o + tod.getD 0 ∧ o + tod.getD 0 < now + after
      · rw [if_pos hw] at ht
        simp only [List.mem_singleton] at ht
        subst ht
        have hsp := head?_filter_ge hs (by
          have hn' := hn
          unfold nextForwardOccurrence at hn'
          exact hn')
        exact ⟨o, rfl, hsp.1, hsp.2.1, hsp.2.2, rfl, hw.1, hw.2⟩
      · rw [if_neg hw] at ht
        simp at ht
  · intro o hn
    constructor
    · intro hw
      simp only [expandHijri, hn]
      rw [if_pos hw]
    · intro hw
      simp only [expandHijri, hn]
      rw [if_neg hw]

/-- Witness for the C8 theorem: with occurrences at 100 and 200, now 50 and window
from 40 to 150, exactly the instance at 100 is emitted. -/
theorem expandHijri_next_forward_in_window_witness :
    expandHijri [100, 200] none 50 10 100 = [(100 : Int)] :=
  ((expandHijri_next_forward_in_window [100, 200] none 50 10 100 (by decide)).2
    100 rfl).1 (by decide)

/-- Claim C9: the Markdown-to-Slack tree walk maps each element as claimed: the
contents of h1 through h6 are wrapped in asterisks, strong and b in asterisks, em
and i in underscores, an anchor with href H and text T becomes the Slack link form
with H, a bar and T between angle brackets, each li is prefixed with a bullet and a
space (after a newline when the buffer does not already end with one), each p
contributes a leading newline, and the final output is the walk of the whole tree
from an empty buffer with surrounding whitespace trimmed; a closed document
evaluates accordingly. -/
theorem htmlToMrkdwn_element_mapping :
    (∀ (attrs : List (String × String)) (cs : HForest) (buf : String),
      traverse (HNode.elem "h1" attrs cs) buf = traverseForest cs (buf ++ "*") ++ "*")
    ∧ (∀ attrs cs buf,
      traverse (HNode.elem "h2" attrs cs) buf = traverseForest cs (buf ++ "*") ++ "*")
    ∧ (∀ attrs cs buf,
      traverse (HNode.elem "h3" attrs cs) buf = traverseForest cs (buf ++ "*") ++ "*")
    ∧ (∀ attrs cs buf,
      traverse (HNode.elem "h4" attrs cs) buf = traverseForest cs (buf ++ "*") ++ "*")
    ∧ (∀ attrs cs buf,
      traverse (HNode.elem "h5" attrs cs) buf = traverseForest cs (buf ++ "*") ++ "*")
    ∧ (∀ attrs cs buf,
      traverse (HNode.elem "h6" attrs cs) buf = traverseForest cs (buf ++ "*") ++ "*")
    ∧ (∀ attrs cs buf,
      traverse (HNode.elem "strong" attrs cs) buf = traverseForest cs (buf ++ "*") ++ "*")
    ∧ (∀ attrs cs buf,
      traverse (HNode.elem "b" attrs cs) buf = traverseForest cs (buf ++ "*") ++ "*")
    ∧ (∀ attrs cs buf,
      traverse (HNode.elem "em" attrs cs) buf = traverseForest cs (buf ++ "_") ++ "_")
    ∧ (∀ attrs cs buf,
      traverse (HNode.elem "i" attrs cs) buf = traverseForest cs (buf ++ "_") ++ "_")
    ∧ (∀ (attrs : List (String × String)) (T buf : String),
      traverse (HNode.elem "a" attrs (HForest.cons (HNode.text T) HForest.nil)) buf
        = buf ++ "<" ++ hrefOf attrs ++ "|" ++ T ++ ">")
    ∧ (∀ attrs cs buf,
      traverse (HNode.elem "li" attrs cs) buf
        = traverseForest cs
            ((if buf.length > 0 && buf.back != '\n' then buf ++ "\n" else buf) ++ "• "))
    ∧ (∀ attrs cs buf,
      traverse (HNode.elem "p" attrs cs) buf = traverseForest cs (buf ++ "\n"))
    ∧ (∀ doc, htmlToMrkdwn doc = trimString (traverse doc ""))
    ∧ htmlToMrkdwn
        (HNode.elem "body" []
          (HForest.cons (HNode.elem "h1" [] (HForest.cons (HNode.text "Title") HForest.nil))
            (HForest.cons
              (HNode.elem "p" []
                (HForest.cons (HNode.text "hi ")
                  (HForest.cons
                    (HNode.elem "strong" [] (HForest.cons (HNode.text "bold") HForest.nil))
                    HForest.nil)))
              HForest.nil)))
        = "*Title*\nhi *bold*" := by
  refine ⟨?_, ?_, ?_, ?_, ?_, ?_, ?_, ?_, ?_, ?_, ?_, ?_, ?_, ?_, ?_⟩ <;> intros <;> rfl

/-! Helper lemmas: every branch of the expansion preserves the campaign of the
fresh copy made by createCallFromDefinition. -/

lemma createCall_campaign_name_ne (d : Call) :
    ¬ (createCallFromDefinition d).campaign.name = "" := by
  by_cases h : d.campaign.name = "" <;> simp [createCallFromDefinition, h]

lemma campaign_expandScheduledAt {cfg : SlotsConfig} {cd : Call} {trig : Trigger}
    {dest : Destination} {now : Int} {st : SlotStore} {c : Call}
    (h : c ∈ (expandScheduledAt cfg cd trig dest now st).1) :
    c.campaign = (createCallFromDefinition cd).campaign := by
  unfold expandScheduledAt at h
  dsimp only at h
  split at h
  · simp at h
  · split at h
    · split at h
      · simp at h
      · simp only [List.mem_singleton] at h
        subst h
        rfl
    · simp only [List.mem_singleton] at h
      subst h
      rfl

lemma campaign_emitCronOccurrence {cfg : SlotsConfig} {cd : Call} {trig : Trigger}
    {dest : Destination} {now t : Int} {st : SlotStore} {c : Call}
    (h : c ∈ (emitCronOccurrence cfg cd trig dest now t st).1) :
    c.campaign = (createCallFromDefinition cd).campaign := by
  unfold emitCronOccurrence at h
  dsimp only at h
  split at h
  · split at h
    · simp at h
    · simp only [List.mem_singleton] at h
      subst h
      rfl
  · simp only [List.mem_singleton] at h
    subst h
    rfl

lemma campaign_expandCron {ext : Ext} {cfg : SlotsConfig} {cd : Call} {trig : Trigger}
    {dest : Destination} {now before after : Int} {st : SlotStore} {c : Call}
    (h : c ∈ (expandCron ext cfg cd trig dest now before after st).1) :
    c.campaign = (createCallFromDefinition cd).campaign := by
  unfold expandCron at h
  split at h
  · simp at h
  · split at h
    · simp at h
    · obtain ⟨t, -, st', h⟩ := mem_foldState h
      exact campaign_emitCronOccurrence h

lemma campaign_expandRRule {ext : Ext} {cfg : SlotsConfig} {cd : Call} {trig : Trigger}
    {dest : Destination} {now before after : Int} {st : SlotStore} {c : Call}
    (h : c ∈ (expandRRule ext cfg cd trig dest now before after st).1) :
    c.campaign = (createCallFromDefinition cd).campaign := by
  unfold expandRRule at h
  split at h
  · simp at h
  · obtain ⟨occ, -, st', h⟩ := mem_foldState h
    dsimp only at h
    split at h
    · simp at h
    · simp only [List.mem_singleton] at h
      subst h
      rfl

lemma campaign_expandSequence {ext : Ext} {cd : Call} {trig : Trigger}
    {dest : Destination} {events : List Event} {st : SlotStore} {c : Call}
    (h : c ∈ (expandSequence ext cd trig dest events st).1) :
    c.campaign = (createCallFromDefinition cd).campaign := by
  unfold expandSequence at h
  split at h
  · obtain ⟨ev, -, st', h⟩ := mem_foldState h
    dsimp only at h
    split at h
    · simp at h
    · simp only [List.mem_singleton] at h
      subst h
      rfl
  · simp at h

lemma campaign_expandTriggerDest {ext : Ext} {cfg : SlotsConfig} {events : List Event}
    {cd : Call} {now before after : Int} {trig : Trigger} {dest : Destination}
    {st : SlotStore} {c : Call}
    (h : c ∈ (expandTriggerDest ext cfg events cd now before after trig dest st).1) :
    c.campaign = (createCallFromDefinition cd).campaign := by
  unfold expandTriggerDest at h
  simp only [List.mem_append] at h
  rcases h with ((h | h) | h) | h
  · exact campaign_expandScheduledAt h
  · exact campaign_expandCron h
  · exact campaign_expandRRule h
  · exact campaign_expandSequence h

/-- Claim C10: createCallFromDefinition defaults an empty campaign name to
announcements and otherwise carries the name through unchanged, copies the
destination list value and clears the triggers of the copy; consequently every
call instance emitted by Expand, through any branch, has a non-empty campaign
name. (The Go-level non-mutation of the original definition is the value
semantics of the embedding: the copy is fresh and only the copy is updated.) -/
theorem expand_campaign_name_defaulted :
    (∀ d : Call,
      (createCallFromDefinition d).campaign.name
          = (if d.campaign.name = "" then "announcements" else d.campaign.name)
      ∧ ¬ (createCallFromDefinition d).campaign.name = ""
      ∧ (createCallFromDefinition d).destinations = d.destinations
      ∧ (createCallFromDefinition d).triggers = [])
    ∧ ∀ (ext : Ext) (cfg : SlotsConfig) (sources : List Source) (now before after : Int),
        ∀ c ∈ (expand ext cfg sources now before after).1, ¬ c.campaign.name = "" := by
  constructor
  · intro d
    refine ⟨?_, createCall_campaign_name_ne d, ?_, ?_⟩
    · by_cases h : d.campaign.name = "" <;> simp [createCallFromDefinition, h]
    · by_cases h : d.campaign.name = "" <;> simp [createCallFromDefinition, h]
    · by_cases h : d.campaign.name = "" <;> simp [createCallFromDefinition, h]
  · intro ext cfg sources now before after c hc
    unfold expand at hc
    obtain ⟨src, -, st1, hc⟩ := mem_foldState hc
    unfold expandSource at hc
    obtain ⟨cd, -, st2, hc⟩ := mem_foldState hc
    unfold expandCall at hc
    obtain ⟨trig, -, st3, hc⟩ := mem_foldState hc
    obtain ⟨dest, -, st4, hc⟩ := mem_foldState hc
    have hcamp := campaign_expandTriggerDest hc
    intro hempty
    rw [hcamp] at hempty
    exact createCall_campaign_name_ne cd hempty

/-- Witness for the C10 theorem: the concrete instance emitted by the
event-sequence expansion carries the defaulted campaign name announcements. -/
theorem expand_campaign_name_defaulted_witness :
    ({ id := "call-A:sequence:launch:1970-01-12T13:46:40Z:slack:general",
       campaign := { name := "announcements" }, scheduledAt := 1000300,
       destinations := [{ dtype := "slack", to_ := ["general"] }] } : Call)
        ∈ (expand extTest cfgEmpty [srcSeq] 1000000 60 86400).1
    ∧ ¬ "announcements" = "" := by
  refine ⟨by decide, ?_⟩
  exact expand_campaign_name_defaulted.2 extTest cfgEmpty [srcSeq] 1000000 60 86400
    { id := "call-A:sequence:launch:1970-01-12T13:46:40Z:slack:general",
      campaign := { name := "announcements" }, scheduledAt := 1000300,
      destinations := [{ dtype := "slack", to_ := ["general"] }] }
    (by decide)

end Ruf
